import Mathlib

/-!
Verification development for the sniproxy repository (vitrevance/sniproxy).

The embedding below models, over `List Nat` byte strings:
  - `parseTLSHandshake` (src/unnamed/part_000, lines 222-241),
  - `TLSRecord.SNI` (src/unnamed/part_000, lines 243-310),
  - `peekClientHello` of the manual-parser variant (lines 204-220),
  - the domain-resolution block of both `HandleConnection` variants
    (lines 35-46 and lines 138-153),
  - `EndpointDB.Get` (src/pkg/endpoints/endpoints.go, lines 66-73),
    with Go's `regexp.MatchString` modelled by a Brzozowski-derivative
    matcher with unanchored (substring) search semantics.

Go slices are modelled with capacity equal to length: an index or slice
beyond the length is a runtime panic, represented by an explicit
`panicked` outcome.  Machine integers: Go's `uint16` arithmetic is
`% 65536`; `int` values in the source are all nonnegative, and every
comparison `a > b - k` on Go ints is rendered as the equivalent
`a + k > b` so that natural-number subtraction never diverges from the
source's signed comparison.
-/

/-- Reads one byte at index `i`; `none` is an out-of-range access
(a Go index panic on an exact-capacity slice). -/
def readByte? (l : List Nat) (i : Nat) : Option Nat :=
  l[i]?

/-- Models `binary.BigEndian.Uint16(l[i:i+2])`: big-endian, `none` when
the two bytes are not in range. -/
def readU16? (l : List Nat) (i : Nat) : Option Nat :=
  match l[i]?, l[i+1]? with
  | some a, some b => some (a * 256 + b)
  | _, _ => none

/-- TLSHeader of src/unnamed/part_000 lines 191-194. -/
structure TLSHeader where
  Type' : Nat
  Version : Nat
deriving DecidableEq, Repr

/-- TLSRecord of src/unnamed/part_000 lines 196-199. -/
structure TLSRecord where
  Header : TLSHeader
  Body : List Nat
deriving DecidableEq, Repr

/-- Outcome of `parseTLSHandshake`: the two sentinel errors `NotTLS` and
`ReadMore`, success, or a Go runtime panic (out-of-range index/slice). -/
inductive ParseResult where
  | notTLS
  | readMore
  | ok (r : TLSRecord)
  | panicked
deriving DecidableEq, Repr

/-- parseTLSHandshake, src/unnamed/part_000 lines 222-241.  `buf[0]` is
read first (panic on an empty buffer), then bytes 1-2 as the version and
bytes 3-4 as the declared size, then the version set is checked.  Go's
`int(size+5)` wraps at 2^16 because `size` is a `uint16`; the body slice
`buf[5 : size+5]` panics when the wrapped bound is below 5. -/
def parseTLSHandshake (buf : List Nat) : ParseResult :=
  match readByte? buf 0 with
  | none => .panicked
  | some b0 =>
    if b0 ≠ 22 then .notTLS
    else
      match readU16? buf 1 with
      | none => .panicked
      | some version =>
        match readU16? buf 3 with
        | none => .panicked
        | some size =>
          if version ≠ 0x0301 ∧ version ≠ 0x0302 ∧ version ≠ 0x0303 ∧ version ≠ 0x0304 then
            .notTLS
          else
            let size5 := (size + 5) % 65536
            if size5 > buf.length then .readMore
            else if 5 > size5 then .panicked
            else .ok ⟨⟨22, version⟩, (buf.take size5).drop 5⟩

/-- Result of the SNI walk: the hostname bytes (`""` is `ok []`), or a
Go runtime panic. -/
inductive SNIRes where
  | ok (s : List Nat)
  | panicked
deriving DecidableEq, Repr

/-- Inner loop of `TLSRecord.SNI` (src/unnamed/part_000 lines 293-304):
the scan over the server_name entry list.  `none` means the loop fell
through and the outer extension loop continues.  Go's guard `n < pos-3`
over ints is `n + 3 < pos`.  Note the source advances `n` by 3 only,
never by the entry's name length, when `nameType ≠ 0`. -/
def sniNameLoop (body : List Nat) (e pos : Nat) (n : Nat) : Option SNIRes :=
  if _h : n + 3 < pos then
    match readByte? body n, readU16? body (n+1) with
    | some nameType, some nameSize =>
      if nameType = 0 then
        if n + 3 + nameSize > e then some (.ok [])
        else some (.ok ((body.take (n + 3 + nameSize)).drop (n + 3)))
      else sniNameLoop body e pos (n+3)
    | _, _ => some .panicked
  else none
termination_by pos - n
decreasing_by omega

/-- Outer extension loop of `TLSRecord.SNI` (src/unnamed/part_000 lines
276-308).  `e` is the clamped end (`pos + extensionsSize` at entry).
Go's checks `pos > end-2` and `pos > end` over ints are rendered as
`pos + 6 > e` (after `pos += 4`) and `pos + 6 + namesLength > e`. -/
def sniExtLoop (body : List Nat) (e : Nat) (pos : Nat) : SNIRes :=
  if _h : pos + 4 < e then
    match readU16? body pos, readU16? body (pos+2) with
    | some extType, some extSize =>
      if extType = 0 then
        if pos + 4 + 2 > e then .ok []
        else
          match readU16? body (pos+4) with
          | none => .panicked
          | some namesLength =>
            if pos + 6 + namesLength > e then .ok []
            else
              match sniNameLoop body e (pos + 6 + namesLength) (pos + 6) with
              | some r => r
              | none => sniExtLoop body e (pos + 6 + namesLength)
      else sniExtLoop body e (pos + 4 + extSize)
    | _, _ => .panicked
  else .ok []
termination_by e - pos
decreasing_by all_goals omega

/-- SNI method on TLSRecord, src/unnamed/part_000 lines 243-310: skips
38 fixed bytes, then session id, cipher suites, compression methods,
reads the extensions length, clamps `end` and scans the extensions.
Each Go check `pos > end-k` over ints is rendered `pos + k > end`. -/
def TLSRecord.SNI (r : TLSRecord) : SNIRes :=
  let body := r.Body
  let e := body.length
  if 38 + 1 > e then .ok []
  else
    match readByte? body 38 with
    | none => .panicked
    | some sessionIdSize =>
      let pos := 38 + 1 + sessionIdSize
      if pos + 2 > e then .ok []
      else
        match readU16? body pos with
        | none => .panicked
        | some cipherSuiteSize =>
          let pos := pos + 2 + cipherSuiteSize
          if pos + 1 > e then .ok []
          else
            match readByte? body pos with
            | none => .panicked
            | some compressionTypeSize =>
              let pos := pos + 1 + compressionTypeSize
              if pos + 2 > e then .ok []
              else
                match readU16? body pos with
                | none => .panicked
                | some extensionsSize =>
                  let pos := pos + 2
                  if pos + extensionsSize > e then .ok []
                  else sniExtLoop body (pos + extensionsSize) pos

/-- Read errors an `io.Reader` can return alongside a chunk: clean
end-of-stream (`io.EOF`) or any other failure. -/
inductive RErr where
  | eof
  | fail (code : Nat)
deriving DecidableEq, Repr

/-- Error values flowing through `peekClientHello` (src/unnamed/part_000
lines 201-220): the parse sentinels `ReadMore` and `NotTLS`, and a read
failure wrapping the reader's error.  `errors.Is(e, NotTLS)` holds only
for `notTLS` (a wrapped read failure never has `NotTLS` in its chain). -/
inductive GoErr where
  | readMore
  | notTLS
  | readFailed (re : RErr)
deriving DecidableEq, Repr

/-- What `peekClientHello` returns when it returns: the SNI string, the
capture buffer, the final error, plus the stream position reached (the
number of `Read` calls made, part of the byte-source model). -/
structure PeekReturn where
  sni : List Nat
  captured : List Nat
  err : Option GoErr
  reads : Nat
deriving DecidableEq, Repr

/-- Terminal outcome of a peek run: a normal return or a Go panic
propagating out of the parse/SNI code. -/
inductive PeekOutcome where
  | ret (r : PeekReturn)
  | panicked (captured : List Nat) (reads : Nat)
deriving DecidableEq, Repr

/-- Capture buffer of an outcome (on `panicked` the buffer contents at
the moment of the panic). -/
def PeekOutcome.captured : PeekOutcome → List Nat
  | .ret r => r.captured
  | .panicked c _ => c

/-- Number of reads performed by an outcome. -/
def PeekOutcome.reads : PeekOutcome → Nat
  | .ret r => r.reads
  | .panicked _ p => p

/-- Zero value of `TLSRecord` (Go's `var tls TLSRecord`). -/
def zeroRecord : TLSRecord := ⟨⟨0, 0⟩, []⟩

/-- Loop of `peekClientHello`, src/unnamed/part_000 lines 207-219.  A
byte source is a function from the read index to the `(chunk, error)`
pair that `reader.Read` yields at that point; `fuel` bounds the number
of iterations we unfold (`none` = no terminal outcome within `fuel`).
Each iteration: read, append the chunk to the capture buffer, return the
read error if `readErr != nil && (!errors.Is(readErr, io.EOF) ||
!errors.Is(err, ReadMore))`, else reparse the whole buffer; the loop
continues only while `err != nil && errors.Is(err, ReadMore)`. -/
def peekGo (src : Nat → List Nat × Option RErr) :
    Nat → Nat → List Nat → TLSRecord → Option GoErr → Option PeekOutcome
  | 0, _, _, _, _ => none
  | fuel+1, pos, cap, tls, err =>
    if err = some GoErr.readMore then
      let rd := src pos
      let cap2 := cap ++ rd.1
      let early : Option RErr :=
        match rd.2 with
        | none => none
        | some re => if re ≠ RErr.eof ∨ err ≠ some GoErr.readMore then some re else none
      match early with
      | some re => some (.ret ⟨[], cap2, some (.readFailed re), pos+1⟩)
      | none =>
        match parseTLSHandshake cap2 with
        | .panicked => some (.panicked cap2 (pos+1))
        | .notTLS => peekGo src fuel (pos+1) cap2 zeroRecord (some .notTLS)
        | .readMore => peekGo src fuel (pos+1) cap2 zeroRecord (some .readMore)
        | .ok r => peekGo src fuel (pos+1) cap2 r none
    else
      match tls.SNI with
      | .ok s => some (.ret ⟨s, cap, err, pos⟩)
      | .panicked => some (.panicked cap pos)

/-- peekClientHello of the manual-parser variant, src/unnamed/part_000
lines 204-220: empty capture buffer, `err` initialized to `ReadMore`. -/
def peekClientHello (src : Nat → List Nat × Option RErr) (fuel : Nat) : Option PeekOutcome :=
  peekGo src fuel 0 [] zeroRecord (some .readMore)

/-- Bytes the source yields over reads `start, start+1, ..,
start+count-1`, concatenated in order. -/
def srcConcat (src : Nat → List Nat × Option RErr) : Nat → Nat → List Nat
  | _, 0 => []
  | a, n+1 => (src a).1 ++ srcConcat src (a+1) n

/-- Domain-resolution block of the manual-parser `HandleConnection`
(src/unnamed/part_000 lines 138-153): a `NotTLS` peek error routes the
wildcard `"*"` (byte 42); any other peek error returns from the handler
(`none`: the connection is aborted before `endpointsDB.Get` runs, which
only happens at line 160 on the `some` path); no error routes the SNI. -/
def resolveDomainParser (sni : List Nat) (err : Option GoErr) : Option (List Nat) :=
  match err with
  | some e => if e = GoErr.notTLS then some [42] else none
  | none => some sni

/-- Regular-expression abstract syntax, modelling the patterns Go's
`regexp.MustCompile` builds for the endpoint file (no anchors: `Get`
uses `MatchString`, which searches for a match anywhere in the input). -/
inductive Regex where
  | emp
  | eps
  | char (c : Char)
  | dot
  | alt (a b : Regex)
  | cat (a b : Regex)
  | star (a : Regex)
deriving DecidableEq, Repr

/-- Does the regex accept the empty string. -/
def Regex.nullable : Regex → Bool
  | .emp => false
  | .eps => true
  | .char _ => false
  | .dot => false
  | .alt a b => a.nullable || b.nullable
  | .cat a b => a.nullable && b.nullable
  | .star _ => true

/-- Brzozowski derivative of a regex by one character. -/
def Regex.deriv : Regex → Char → Regex
  | .emp, _ => .emp
  | .eps, _ => .emp
  | .char c, d => if c = d then .eps else .emp
  | .dot, _ => .eps
  | .alt a b, d => .alt (a.deriv d) (b.deriv d)
  | .cat a b, d =>
      if a.nullable then .alt (.cat (a.deriv d) b) (b.deriv d)
      else .cat (a.deriv d) b
  | .star a, d => .cat (a.deriv d) (.star a)

/-- Anchored match: the regex accepts exactly the whole character list. -/
def Regex.fullmatch (r : Regex) (s : List Char) : Bool :=
  (s.foldl Regex.deriv r).nullable

/-- Some initial segment of `s` (possibly empty) is accepted by `r`. -/
def Regex.matchPref (r : Regex) : List Char → Bool
  | [] => r.nullable
  | c :: cs => r.nullable || (r.deriv c).matchPref cs

/-- Models Go's `regexp.MatchString`: some substring of `s` (at any
start position) is accepted by `r` — RE2's unanchored search. -/
def Regex.matchString (r : Regex) : List Char → Bool
  | [] => r.matchPref []
  | c :: cs => r.matchPref (c :: cs) || r.matchString cs

/-- Literal-string regex: concatenation of single characters.  The
compiled form of a pattern whose metacharacters are all escaped. -/
def rstr (s : List Char) : Regex :=
  s.foldr (fun c r => .cat (.char c) r) .eps

/-- EndpointEntry of src/pkg/endpoints/endpoints.go lines 13-17: the raw
pattern, the backend address, and the compiled matcher. -/
structure EndpointEntry where
  Domain : List Char
  Address : List Char
  regex : Regex
deriving DecidableEq, Repr

/-- EndpointDB of src/pkg/endpoints/endpoints.go lines 20-24 (the file
name only feeds the loader, which is out of the modelled core). -/
structure EndpointDB where
  endpoints : List EndpointEntry
deriving DecidableEq, Repr

/-- The not-found error text of `Get` (endpoints.go line 72). -/
def notFoundMsg (endpoint : List Char) : List Char :=
  ("failed to find entry for endpoint ").toList ++ endpoint

/-- Loop of `Get` (endpoints.go lines 67-71): first entry whose compiled
regex matches wins. -/
def getScan : List EndpointEntry → List Char → Except (List Char) EndpointEntry
  | [], endpoint => .error (notFoundMsg endpoint)
  | ep :: rest, endpoint =>
      if ep.regex.matchString endpoint then .ok ep else getScan rest endpoint

/-- Get, src/pkg/endpoints/endpoints.go lines 66-73. -/
def EndpointDB.Get (e : EndpointDB) (endpoint : List Char) : Except (List Char) EndpointEntry :=
  getScan e.endpoints endpoint

/-- First-match specification of `Get`: `List.find?` on the match
predicate, not-found error when no entry matches. -/
def firstMatchSpec (e : EndpointDB) (endpoint : List Char) : Except (List Char) EndpointEntry :=
  match e.endpoints.find? (fun ep => ep.regex.matchString endpoint) with
  | some ep => .ok ep
  | none => .error (notFoundMsg endpoint)

/-- Compiled matcher of the pattern `a\.com` (the dot escaped: a
literal string). -/
def reACom : Regex := rstr ("a.com").toList

/-- Compiled matcher of the pattern `.*`. -/
def reAny : Regex := .star .dot

/-- The entry `("a\.com", "10.0.0.1:443")` of the spec's router example. -/
def entryACom : EndpointEntry :=
  ⟨("a\\.com").toList, ("10.0.0.1:443").toList, reACom⟩

/-- The entry `(".*", "10.0.0.2:443")` of the spec's router example. -/
def entryAny : EndpointEntry :=
  ⟨(".*").toList, ("10.0.0.2:443").toList, reAny⟩

/-- The two-entry example table of the spec's router property. -/
def exampleDB : EndpointDB := ⟨[entryACom, entryAny]⟩

/-- Big-endian 16-bit encoding of `k` as two bytes (the inverse of the
`binary.BigEndian.Uint16` read, for building test bodies). -/
def u16be (k : Nat) : List Nat := [k / 256, k % 256]

/-- A well-formed ClientHello body in the layout `TLSRecord.SNI` walks
(spec section 4.1): 38 header bytes (message header, client version,
random — never inspected), session id with 1-byte length, cipher suites
with 2-byte length, compression methods with 1-byte length, extensions
block with 2-byte length holding one server_name extension (type 0)
whose list starts with a nameType-0 entry carrying `name`, followed by
`tE` (trailing entry bytes inside the list) and `tX` (trailing
extension bytes). -/
def mkCHBody (head38 sid cs comp name tE tX : List Nat) : List Nat :=
  head38 ++
    ([sid.length] ++
      (sid ++
        (u16be cs.length ++
          (cs ++
            ([comp.length] ++
              (comp ++
                (u16be (9 + name.length + tE.length + tX.length) ++
                  (u16be 0 ++
                    (u16be (2 + (3 + name.length + tE.length)) ++
                      (u16be (3 + name.length + tE.length) ++
                        ([0] ++
                          (u16be name.length ++
                            (name ++ (tE ++ tX))))))))))))))

/-- Byte values of the hostname "example.com". -/
def exampleComBytes : List Nat := [101,120,97,109,112,108,101,46,99,111,109]

/-- ClientHello body whose server_name list holds a nameType-1 entry
with the 1-byte name "a" (bytes `1,0,1,97`) FOLLOWED by a nameType-0
entry with the 1-byte name "x" (bytes `0,0,1,120`): 38 zero bytes, empty
session id / cipher suites / compression, extensions length 14,
extension type 0 of size 10, server_name list length 8. -/
def c5cexBody : List Nat :=
  [0,0,0,0,0,0,0,0,0,0,0,0,0,0,0,0,0,0,0,0,0,0,0,0,0,0,0,0,0,0,0,0,0,0,0,0,0,0,
   0, 0,0, 0, 0,14, 0,0, 0,10, 0,8, 1,0,1,97, 0,0,1,120]

/-- A byte source that yields a valid 5-byte record header declaring a
100-byte body and then reports clean end-of-stream forever — a client
that closed after sending a partial handshake. -/
def stuckSrc : Nat → List Nat × Option RErr :=
  fun i => if i = 0 then ([22,3,1,0,100], none) else ([], some RErr.eof)

/-- A byte source whose every read fails with a non-EOF error. -/
def errSrc : Nat → List Nat × Option RErr := fun _ => ([], some (RErr.fail 7))

/-- A byte source yielding a single non-TLS byte per read. -/
def zeroByteSrc : Nat → List Nat × Option RErr := fun _ => ([0], none)

theorem get?_lt_some (l : List Nat) (i : Nat) (h : i < l.length) : ∃ a, l[i]? = some a := by
  cases hg : l[i]? with
  | none => rw [List.getElem?_eq_none_iff] at hg; omega
  | some a => exact ⟨a, rfl⟩

theorem readU16_lt_some (l : List Nat) (i : Nat) (h : i + 2 ≤ l.length) :
    ∃ v, readU16? l i = some v := by
  obtain ⟨a, ha⟩ := get?_lt_some l i (by omega)
  obtain ⟨b, hb⟩ := get?_lt_some l (i+1) (by omega)
  exact ⟨a * 256 + b, by simp [readU16?, ha, hb]⟩

/-- C1: the claim says every buffer shorter than `5 + declared_size`
gets the `ReadMore` verdict, including declared sizes near the u16
maximum.  The code instead panics there: on `[22, 3, 1, 255, 251]`
(valid type and version 0x0301, declared size 0xFFFB = 65531, length
5 < 5 + 65531) Go computes the `uint16` sum `size + 5 = 0`, the
`int(size+5) > len(buf)` guard fails, and `buf[5:0]` panics with a
slice-bounds violation instead of returning `ReadMore`. -/
theorem parse_size_overflow_panics :
    parseTLSHandshake [22, 3, 1, 255, 251] = ParseResult.panicked := by decide

/-- C7 counterexample: the claim says every buffer whose version field
(bytes 1-2) is not a recognized TLS version gets `NotTLS`.  On the
3-byte buffer `[22, 0, 0]` — first byte 22, version field 0x0000,
unrecognized — the code reads `buf[3:5]` before checking the version
and panics instead of returning `NotTLS`. -/
theorem parse_short_invalid_version_panics :
    parseTLSHandshake [22, 0, 0] = ParseResult.panicked
    ∧ parseTLSHandshake [22, 0, 0] ≠ ParseResult.notTLS := by
  exact ⟨by decide, by decide⟩

/-- C7 amended: every nonempty buffer whose first byte is not 22 parses
to `NotTLS`; and every buffer of length at least 5 (so the size field
at bytes 3-4 is readable) whose version field is none of 0x0301-0x0304
parses to `NotTLS`. -/
theorem parse_notTLS_amended :
    (∀ buf b0, readByte? buf 0 = some b0 → b0 ≠ 22 → parseTLSHandshake buf = ParseResult.notTLS)
    ∧ (∀ buf v, 5 ≤ buf.length → readU16? buf 1 = some v →
        v ≠ 0x0301 → v ≠ 0x0302 → v ≠ 0x0303 → v ≠ 0x0304 →
        parseTLSHandshake buf = ParseResult.notTLS) := by
  constructor
  · intro buf b0 h hne
    simp only [parseTLSHandshake, h]
    rw [if_pos hne]
  · intro buf v hlen hv h1 h2 h3 h4
    obtain ⟨b0, hb0⟩ := get?_lt_some buf 0 (by omega)
    have hb0' : readByte? buf 0 = some b0 := hb0
    by_cases hb : b0 = 22
    · obtain ⟨s, hs⟩ := readU16_lt_some buf 3 (by omega)
      simp only [parseTLSHandshake, hb0', hv, hs]
      rw [if_neg (by simp [hb]), if_pos ⟨h1, h2, h3, h4⟩]
    · simp only [parseTLSHandshake, hb0']
      rw [if_pos hb]

/-- C7 amended, instantiated: `[5, 1, 2]` (first byte not 22) and
`[22, 1, 1, 0, 0]` (length 5, version 0x0101) both parse to `NotTLS`. -/
theorem parse_notTLS_amended_witness :
    parseTLSHandshake [5, 1, 2] = ParseResult.notTLS
    ∧ parseTLSHandshake [22, 1, 1, 0, 0] = ParseResult.notTLS :=
  ⟨parse_notTLS_amended.1 [5, 1, 2] 5 rfl (by decide),
   parse_notTLS_amended.2 [22, 1, 1, 0, 0] 257 (by decide) rfl
     (by decide) (by decide) (by decide) (by decide)⟩

set_option maxRecDepth 4000 in
theorem peekGo_stuck_aux (fuel : Nat) :
    ∀ pos, peekGo stuckSrc fuel (pos+1) [22,3,1,0,100] zeroRecord (some GoErr.readMore) = none := by
  induction fuel with
  | zero => intro pos; rfl
  | succ f ih =>
    intro pos
    have hsrc : stuckSrc (pos+1) = ([], some RErr.eof) := by simp [stuckSrc]
    have hparse : parseTLSHandshake ([22,3,1,0,100] ++ []) = ParseResult.readMore := by decide
    simp only [peekGo, hsrc, hparse]
    simpa using ih (pos+1)

set_option maxRecDepth 4000 in
/-- C4: the claim says the peek loop reaches a terminal outcome after
finitely many reads on every source, in particular on a clean
end-of-stream while the record is still incomplete.  It does not: on
`stuckSrc` (a valid header declaring a 100-byte body, then EOF forever)
the parse verdict stays `ReadMore`, and the EOF guard
`!errors.Is(readErr, io.EOF) || !errors.Is(err, ReadMore)` never fires
because the previous verdict is always `ReadMore` inside the loop, so
no fuel bound suffices: the loop re-reads EOF and re-parses forever. -/
theorem peek_spins_forever_on_eof :
    ∀ fuel, peekClientHello stuckSrc fuel = none := by
  intro fuel
  cases fuel with
  | zero => rfl
  | succ f =>
    have hsrc : stuckSrc 0 = ([22,3,1,0,100], none) := by simp [stuckSrc]
    have hparse : parseTLSHandshake ([] ++ [22,3,1,0,100]) = ParseResult.readMore := by decide
    show peekGo stuckSrc (f+1) 0 [] zeroRecord (some GoErr.readMore) = none
    simp only [peekGo, hsrc, hparse]
    simpa using peekGo_stuck_aux f 0

set_option maxRecDepth 4000 in
theorem peekGo_captures (fuel : Nat) :
    ∀ src pos cap tls err out, peekGo src fuel pos cap tls err = some out →
      pos ≤ out.reads ∧ out.captured = cap ++ srcConcat src pos (out.reads - pos) := by
  induction fuel with
  | zero => intro src pos cap tls err out h; exact absurd h (by simp [peekGo])
  | succ f ih =>
    intro src pos cap tls err out h
    simp only [peekGo] at h
    by_cases he : err = some GoErr.readMore
    · rw [if_pos he] at h
      split at h
      · -- early read failure
        rename_i re hre
        cases h
        refine ⟨by simp [PeekOutcome.reads], ?_⟩
        have h1 : pos + 1 - pos = 1 := by omega
        simp [PeekOutcome.captured, PeekOutcome.reads, h1, srcConcat]
      · -- no early failure: parse
        split at h
        · -- panicked
          cases h
          refine ⟨by simp [PeekOutcome.reads], ?_⟩
          have h1 : pos + 1 - pos = 1 := by omega
          simp [PeekOutcome.captured, PeekOutcome.reads, h1, srcConcat]
        · -- notTLS: recursive
          obtain ⟨h1, h2⟩ := ih src (pos+1) _ _ _ out h
          refine ⟨by omega, ?_⟩
          rw [h2]
          have hk : out.reads - pos = (out.reads - (pos+1)) + 1 := by omega
          rw [hk]
          simp [srcConcat, List.append_assoc]
        · -- readMore: recursive
          obtain ⟨h1, h2⟩ := ih src (pos+1) _ _ _ out h
          refine ⟨by omega, ?_⟩
          rw [h2]
          have hk : out.reads - pos = (out.reads - (pos+1)) + 1 := by omega
          rw [hk]
          simp [srcConcat, List.append_assoc]
        · -- ok: recursive
          obtain ⟨h1, h2⟩ := ih src (pos+1) _ _ _ out h
          refine ⟨by omega, ?_⟩
          rw [h2]
          have hk : out.reads - pos = (out.reads - (pos+1)) + 1 := by omega
          rw [hk]
          simp [srcConcat, List.append_assoc]
    · rw [if_neg he] at h
      split at h
      · cases h
        refine ⟨by simp [PeekOutcome.reads], ?_⟩
        simp [PeekOutcome.captured, PeekOutcome.reads, srcConcat]
      · cases h
        refine ⟨by simp [PeekOutcome.reads], ?_⟩
        simp [PeekOutcome.captured, PeekOutcome.reads, srcConcat]

/-- C2: for every byte source, every fuel bound and every terminal
outcome of the peek loop — success, empty SNI, `NotTLS`, read failure,
and even a propagating panic — the capture buffer of the outcome is
exactly the concatenation, in read order, of every byte the source
yielded over the reads performed. -/
theorem peek_preserves_all_bytes (src : Nat → List Nat × Option RErr) (fuel : Nat)
    (out : PeekOutcome) (h : peekClientHello src fuel = some out) :
    out.captured = srcConcat src 0 out.reads := by
  have := peekGo_captures fuel src 0 [] zeroRecord (some GoErr.readMore) out h
  simpa using this.2

/-- C2 witness: on the source yielding a single `0` byte per read the
loop stops after one read with a `NotTLS` verdict and the captured
buffer `[0]`, which equals the bytes read. -/
theorem peek_preserves_all_bytes_witness :
    (PeekOutcome.ret ⟨[], [0], some GoErr.notTLS, 1⟩).captured
      = srcConcat zeroByteSrc 0 (PeekOutcome.ret ⟨[], [0], some GoErr.notTLS, 1⟩).reads :=
  peek_preserves_all_bytes zeroByteSrc 2 (PeekOutcome.ret ⟨[], [0], some GoErr.notTLS, 1⟩) rfl

/-- C6: while the parser still wants more data (`err = ReadMore`), a
read that fails with anything other than clean end-of-stream makes the
peeker return immediately with that read failure wrapped in its error
(and the bytes captured so far), and the manual-parser handler then
aborts: `resolveDomainParser` yields `none`, i.e. `HandleConnection`
returns at the error check before `endpointsDB.Get` is ever invoked. -/
theorem read_failure_aborts_before_routing
    (src : Nat → List Nat × Option RErr) (fuel pos : Nat) (cap : List Nat)
    (tls : TLSRecord) (re : RErr)
    (hre : (src pos).2 = some re) (hne : re ≠ RErr.eof) :
    peekGo src (fuel+1) pos cap tls (some GoErr.readMore)
      = some (PeekOutcome.ret ⟨[], cap ++ (src pos).1, some (GoErr.readFailed re), pos+1⟩)
    ∧ resolveDomainParser [] (some (GoErr.readFailed re)) = none := by
  constructor
  · simp only [peekGo, hre]
    simp
    rw [if_neg hne]
  · rfl

/-- C6 witness: on the always-failing source the peeker surfaces the
read failure after one read and the handler aborts before routing. -/
theorem read_failure_aborts_before_routing_witness :
    peekGo errSrc 1 0 [] zeroRecord (some GoErr.readMore)
      = some (PeekOutcome.ret ⟨[], [], some (GoErr.readFailed (RErr.fail 7)), 1⟩)
    ∧ resolveDomainParser [] (some (GoErr.readFailed (RErr.fail 7))) = none :=
  read_failure_aborts_before_routing errSrc 0 0 [] zeroRecord (RErr.fail 7) rfl (by decide)

theorem sniNameLoop_ok (body : List Nat) (e : Nat) (he : e ≤ body.length) :
    ∀ k pos n, pos ≤ e → pos - n ≤ k →
      sniNameLoop body e pos n = none ∨ ∃ s, sniNameLoop body e pos n = some (SNIRes.ok s) := by
  intro k
  induction k with
  | zero =>
    intro pos n hpe hk
    rw [sniNameLoop, dif_neg (by omega)]
    exact Or.inl rfl
  | succ k ih =>
    intro pos n hpe hk
    rw [sniNameLoop]
    by_cases hg : n + 3 < pos
    · rw [dif_pos hg]
      obtain ⟨a, ha⟩ := get?_lt_some body n (by omega)
      obtain ⟨v, hv⟩ := readU16_lt_some body (n+1) (by omega)
      have ha' : readByte? body n = some a := ha
      simp only [ha', hv]
      by_cases h0 : a = 0
      · rw [if_pos h0]
        by_cases hsz : n + 3 + v > e
        · rw [if_pos hsz]; exact Or.inr ⟨[], rfl⟩
        · rw [if_neg hsz]; exact Or.inr ⟨_, rfl⟩
      · rw [if_neg h0]
        exact ih pos (n+3) hpe (by omega)
    · rw [dif_neg hg]
      exact Or.inl rfl

theorem sniExtLoop_ok (body : List Nat) (e : Nat) (he : e ≤ body.length) :
    ∀ k pos, e - pos ≤ k → ∃ s, sniExtLoop body e pos = SNIRes.ok s := by
  intro k
  induction k with
  | zero =>
    intro pos hk
    rw [sniExtLoop, dif_neg (by omega)]
    exact ⟨[], rfl⟩
  | succ k ih =>
    intro pos hk
    rw [sniExtLoop]
    by_cases hg : pos + 4 < e
    · rw [dif_pos hg]
      obtain ⟨t, ht⟩ := readU16_lt_some body pos (by omega)
      obtain ⟨z, hz⟩ := readU16_lt_some body (pos+2) (by omega)
      simp only [ht, hz]
      by_cases h0 : t = 0
      · rw [if_pos h0]
        by_cases h6 : pos + 4 + 2 > e
        · rw [if_pos h6]; exact ⟨[], rfl⟩
        · rw [if_neg h6]
          obtain ⟨nl, hnl⟩ := readU16_lt_some body (pos+4) (by omega)
          simp only [hnl]
          by_cases h7 : pos + 6 + nl > e
          · rw [if_pos h7]; exact ⟨[], rfl⟩
          · rw [if_neg h7]
            rcases sniNameLoop_ok body e he (pos + 6 + nl) (pos + 6 + nl) (pos + 6)
                (by omega) (by omega) with hnone | ⟨s, hsome⟩
            · rw [hnone]
              exact ih (pos + 6 + nl) (by omega)
            · rw [hsome]
              exact ⟨s, rfl⟩
      · rw [if_neg h0]
        exact ih (pos + 4 + z) (by omega)
    · rw [dif_neg hg]
      exact ⟨[], rfl⟩

/-- C3: for every body byte slice — truncated, empty or arbitrary —
the SNI walk performs no out-of-bounds read: it always returns a string
(never the `panicked` outcome), and, by construction of its checks,
returns `""` whenever a length field or offset would run past the
body's end.  Proved by bounded induction over both scan loops, using
that every read is guarded by a comparison against the clamped end. -/
theorem sni_total_no_oob (r : TLSRecord) : ∃ s, r.SNI = SNIRes.ok s := by
  unfold TLSRecord.SNI
  by_cases h1 : 38 + 1 > r.Body.length
  · rw [if_pos h1]; exact ⟨[], rfl⟩
  · rw [if_neg h1]
    obtain ⟨a, ha⟩ := get?_lt_some r.Body 38 (by omega)
    have ha' : readByte? r.Body 38 = some a := ha
    simp only [ha']
    by_cases h2 : 38 + 1 + a + 2 > r.Body.length
    · rw [if_pos h2]; exact ⟨[], rfl⟩
    · rw [if_neg h2]
      obtain ⟨c, hc⟩ := readU16_lt_some r.Body (38 + 1 + a) (by omega)
      simp only [hc]
      by_cases h3 : 38 + 1 + a + 2 + c + 1 > r.Body.length
      · rw [if_pos h3]; exact ⟨[], rfl⟩
      · rw [if_neg h3]
        obtain ⟨m, hm⟩ := get?_lt_some r.Body (38 + 1 + a + 2 + c) (by omega)
        have hm' : readByte? r.Body (38 + 1 + a + 2 + c) = some m := hm
        simp only [hm']
        by_cases h4 : 38 + 1 + a + 2 + c + 1 + m + 2 > r.Body.length
        · rw [if_pos h4]; exact ⟨[], rfl⟩
        · rw [if_neg h4]
          obtain ⟨x, hx⟩ := readU16_lt_some r.Body (38 + 1 + a + 2 + c + 1 + m) (by omega)
          simp only [hx]
          by_cases h5 : 38 + 1 + a + 2 + c + 1 + m + 2 + x > r.Body.length
          · rw [if_pos h5]; exact ⟨[], rfl⟩
          · rw [if_neg h5]
            exact sniExtLoop_ok r.Body _ (by omega) _ _ (le_refl _)

theorem getScan_eq_find (l : List EndpointEntry) (h : List Char) :
    getScan l h = (match l.find? (fun ep => ep.regex.matchString h) with
      | some ep => Except.ok ep
      | none => Except.error (notFoundMsg h)) := by
  induction l with
  | nil => rfl
  | cons ep rest ih =>
    simp only [getScan, List.find?]
    by_cases hm : ep.regex.matchString h
    · simp [hm]
    · simp only [Bool.not_eq_true] at hm
      simp [hm, ih]

/-- C8: `Get` is a deterministic first-match linear scan: on every
table it equals the `List.find?` specification (earliest matching entry
wins), on the spec's example table `Get "a.com"` returns the `a\.com`
entry and `Get "b.com"` the `.*` wildcard entry, the empty table yields
the not-found error for every hostname, and the result is an error
exactly when no entry's pattern matches. -/
theorem get_first_match_linear_scan :
    (∀ (db : EndpointDB) (h : List Char), db.Get h = firstMatchSpec db h)
    ∧ exampleDB.Get ("a.com").toList = Except.ok entryACom
    ∧ exampleDB.Get ("b.com").toList = Except.ok entryAny
    ∧ (∀ h : List Char, (EndpointDB.mk []).Get h = Except.error (notFoundMsg h))
    ∧ (∀ (db : EndpointDB) (h : List Char),
        (∃ msg, db.Get h = Except.error msg)
          ↔ ∀ ep ∈ db.endpoints, ep.regex.matchString h = false) := by
  refine ⟨fun db h => getScan_eq_find db.endpoints h, rfl, rfl, fun _ => rfl, ?_⟩
  intro db h
  rw [show db.Get h = getScan db.endpoints h from rfl, getScan_eq_find]
  cases hf : db.endpoints.find? (fun ep => ep.regex.matchString h) with
  | none =>
    simp only []
    constructor
    · intro _
      intro ep hep
      have := List.find?_eq_none.mp hf ep hep
      simpa using this
    · intro _
      exact ⟨notFoundMsg h, rfl⟩
  | some ep =>
    simp only []
    constructor
    · rintro ⟨msg, hmsg⟩
      cases hmsg
    · intro hall
      have hmem := List.mem_of_find?_eq_some hf
      have hp := List.find?_some hf
      have := hall ep hmem
      rw [this] at hp
      cases hp

theorem fullmatch_nil (r : Regex) : r.fullmatch [] = r.nullable := rfl

theorem fullmatch_cons (r : Regex) (c : Char) (cs : List Char) :
    r.fullmatch (c :: cs) = (r.deriv c).fullmatch cs := rfl

theorem matchPref_iff (l : List Char) : ∀ r : Regex,
    r.matchPref l = true ↔ ∃ p q, l = p ++ q ∧ r.fullmatch p = true := by
  induction l with
  | nil =>
    intro r
    simp only [Regex.matchPref]
    constructor
    · intro h; exact ⟨[], [], rfl, h⟩
    · rintro ⟨p, q, hpq, hf⟩
      have hp : p = [] := by
        cases p with
        | nil => rfl
        | cons a t => simp at hpq
      subst hp
      exact hf
  | cons c cs ih =>
    intro r
    simp only [Regex.matchPref, Bool.or_eq_true]
    constructor
    · rintro (hn | hm)
      · exact ⟨[], c :: cs, rfl, hn⟩
      · obtain ⟨p, q, hpq, hf⟩ := (ih (r.deriv c)).mp hm
        exact ⟨c :: p, q, by simp [hpq], by rw [fullmatch_cons]; exact hf⟩
    · rintro ⟨p, q, hpq, hf⟩
      cases p with
      | nil =>
        left
        cases hpq
        exact hf
      | cons a t =>
        right
        simp only [List.cons_append, List.cons.injEq] at hpq
        obtain ⟨rfl, htq⟩ := hpq
        exact (ih (r.deriv c)).mpr ⟨t, q, htq, by rw [fullmatch_cons] at hf; exact hf⟩

theorem matchString_iff (l : List Char) : ∀ r : Regex,
    r.matchString l = true ↔ ∃ u t, l = u ++ t ∧ r.matchPref t = true := by
  induction l with
  | nil =>
    intro r
    simp only [Regex.matchString]
    constructor
    · intro h; exact ⟨[], [], rfl, h⟩
    · rintro ⟨u, t, hut, hm⟩
      have hu : u = [] := by
        cases u with
        | nil => rfl
        | cons a s => simp at hut
      subst hu
      simp at hut
      subst hut
      exact hm
  | cons c cs ih =>
    intro r
    simp only [Regex.matchString, Bool.or_eq_true]
    constructor
    · rintro (hm | hs)
      · exact ⟨[], c :: cs, rfl, hm⟩
      · obtain ⟨u, t, hut, hm⟩ := (ih r).mp hs
        exact ⟨c :: u, t, by simp [hut], hm⟩
    · rintro ⟨u, t, hut, hm⟩
      cases u with
      | nil =>
        left
        cases hut
        exact hm
      | cons a s =>
        right
        simp only [List.cons_append, List.cons.injEq] at hut
        obtain ⟨rfl, hst⟩ := hut
        exact (ih r).mpr ⟨s, t, hst, hm⟩

/-- C10: endpoint pattern matching is unanchored: `MatchString` (as
used by `Get`) succeeds exactly when SOME substring of the hostname is
accepted by the pattern, so on the example table the pattern `a\.com`
matches the hostname "bad-a.com.evil", which merely contains the
substring "a.com", and `Get` routes it to that entry. -/
theorem match_is_unanchored_substring :
    (∀ (r : Regex) (s : List Char),
        r.matchString s = true ↔ ∃ u v w, s = u ++ (v ++ w) ∧ r.fullmatch v = true)
    ∧ exampleDB.Get ("bad-a.com.evil").toList = Except.ok entryACom := by
  constructor
  · intro r s
    rw [matchString_iff]
    constructor
    · rintro ⟨u, t, rfl, hp⟩
      obtain ⟨p, q, rfl, hf⟩ := (matchPref_iff t r).mp hp
      exact ⟨u, p, q, rfl, hf⟩
    · rintro ⟨u, v, w, rfl, hf⟩
      exact ⟨u, v ++ w, rfl, (matchPref_iff (v ++ w) r).mpr ⟨v, w, rfl, hf⟩⟩
  · rfl

theorem get_skip (l₁ l₂ : List Nat) (i : Nat) :
    (l₁ ++ l₂)[l₁.length + i]? = l₂[i]? := by
  induction l₁ with
  | nil => simp
  | cons a t ih =>
    simp only [List.cons_append, List.length_cons]
    rw [show t.length + 1 + i = (t.length + i) + 1 by omega]
    simpa using ih

theorem readU16_skip (l₁ l₂ : List Nat) (i : Nat) :
    readU16? (l₁ ++ l₂) (l₁.length + i) = readU16? l₂ i := by
  unfold readU16?
  rw [get_skip, show l₁.length + i + 1 = l₁.length + (i + 1) by omega, get_skip]

theorem readU16_u16be (k : Nat) (l : List Nat) : readU16? (u16be k ++ l) 0 = some k := by
  show readU16? (k / 256 :: k % 256 :: l) 0 = some k
  simp only [readU16?]
  simp
  omega

theorem getByte_at (pre rest : List Nat) (a i : Nat) (hk : i = pre.length) :
    readByte? (pre ++ (a :: rest)) i = some a := by
  subst hk
  have := get_skip pre (a :: rest) 0
  simpa [readByte?] using this

theorem readU16_at (pre rest : List Nat) (k i : Nat) (hk : i = pre.length) :
    readU16? (pre ++ (u16be k ++ rest)) i = some k := by
  subst hk
  have h := readU16_skip pre (u16be k ++ rest) 0
  rw [Nat.add_zero] at h
  rw [h, readU16_u16be]

theorem dropTake_at (pre mid rest : List Nat) (a b : Nat)
    (ha : a = pre.length) (hb : b = pre.length + mid.length) :
    (((pre ++ (mid ++ rest)).take b).drop a) = mid := by
  subst ha hb
  rw [show pre ++ (mid ++ rest) = (pre ++ mid) ++ rest by simp [List.append_assoc]]
  rw [show pre.length + mid.length = (pre ++ mid).length by simp]
  rw [List.take_left, List.drop_left]

theorem sniNameLoop_hit (body pre name rest : List Nat) (e p n : Nat)
    (hbody : body = pre ++ ([0] ++ (u16be name.length ++ (name ++ rest))))
    (he : e = pre.length + 3 + name.length + rest.length)
    (hn : n = pre.length)
    (hp : pre.length + 3 < p) :
    sniNameLoop body e p n = some (SNIRes.ok name) := by
  rw [sniNameLoop, dif_pos (by omega)]
  have h0 : readByte? body n = some 0 := by
    rw [hbody]
    exact getByte_at pre (u16be name.length ++ (name ++ rest)) 0 n hn
  have h1 : readU16? body (n+1) = some name.length := by
    rw [hbody]
    rw [show pre ++ ([0] ++ (u16be name.length ++ (name ++ rest)))
        = (pre ++ [0]) ++ (u16be name.length ++ (name ++ rest)) by simp [List.append_assoc]]
    exact readU16_at (pre ++ [0]) (name ++ rest) name.length (n+1) (by simp [hn])
  simp only [h0, h1, if_true]
  rw [if_neg (by omega)]
  have hslice : (body.take (n + 3 + name.length)).drop (n + 3) = name := by
    rw [hbody]
    rw [show pre ++ ([0] ++ (u16be name.length ++ (name ++ rest)))
        = (pre ++ [0] ++ u16be name.length) ++ (name ++ rest) by simp [List.append_assoc]]
    exact dropTake_at (pre ++ [0] ++ u16be name.length) name rest (n+3) (n + 3 + name.length)
      (by simp [hn, u16be]) (by simp [hn, u16be])
  rw [hslice]

theorem sniExtLoop_hit (body pre name tE tX : List Nat) (e p : Nat)
    (hbody : body = pre ++ (u16be 0 ++ (u16be (2 + (3 + name.length + tE.length)) ++
        (u16be (3 + name.length + tE.length) ++
          ([0] ++ (u16be name.length ++ (name ++ (tE ++ tX))))))))
    (he : e = pre.length + (9 + name.length + tE.length + tX.length))
    (hp : p = pre.length)
    (hq : 1 ≤ name.length) :
    sniExtLoop body e p = SNIRes.ok name := by
  have hassoc1 : body = (pre ++ u16be 0) ++ (u16be (2 + (3 + name.length + tE.length)) ++
      (u16be (3 + name.length + tE.length) ++
        ([0] ++ (u16be name.length ++ (name ++ (tE ++ tX)))))) := by
    rw [hbody]; simp [List.append_assoc]
  have hassoc2 : body = (pre ++ u16be 0 ++ u16be (2 + (3 + name.length + tE.length))) ++
      (u16be (3 + name.length + tE.length) ++
        ([0] ++ (u16be name.length ++ (name ++ (tE ++ tX))))) := by
    rw [hbody]; simp [List.append_assoc]
  have hassoc3 : body = (pre ++ u16be 0 ++ u16be (2 + (3 + name.length + tE.length)) ++
      u16be (3 + name.length + tE.length)) ++
        ([0] ++ (u16be name.length ++ ((name ++ tE) ++ tX))) := by
    rw [hbody]; simp [List.append_assoc]
  rw [sniExtLoop, dif_pos (by omega)]
  have h0 : readU16? body p = some 0 := by
    rw [hbody]
    exact readU16_at pre _ 0 p hp
  have h1 : readU16? body (p+2) = some (2 + (3 + name.length + tE.length)) := by
    rw [hassoc1]
    exact readU16_at (pre ++ u16be 0) _ _ (p+2) (by simp [hp, u16be])
  have h2 : readU16? body (p+4) = some (3 + name.length + tE.length) := by
    rw [hassoc2]
    exact readU16_at (pre ++ u16be 0 ++ u16be (2 + (3 + name.length + tE.length))) _ _ (p+4)
      (by simp [hp, u16be])
  simp only [h0, h1, if_true]
  rw [if_neg (by omega)]
  simp only [h2]
  rw [if_neg (by omega)]
  rw [sniNameLoop_hit body (pre ++ u16be 0 ++ u16be (2 + (3 + name.length + tE.length)) ++
        u16be (3 + name.length + tE.length)) name (tE ++ tX)
      e (p + 6 + (3 + name.length + tE.length)) (p + 6)
      (by rw [hassoc3]; simp [List.append_assoc])
      (by simp [he, hp, u16be]; omega)
      (by simp [hp, u16be])
      (by simp [hp, u16be]; omega)]

set_option maxRecDepth 4000 in
/-- C5 amended: for every well-formed ClientHello body whose
server_name extension's FIRST entry has nameType 0 and a nonempty name
— arbitrary 38 leading bytes, session id, cipher suites, compression
methods, and arbitrary trailing entry bytes and trailing extension
bytes — `TLSRecord.SNI` returns exactly that entry's name, ignoring
everything after the match.  (The claim's further assertion that this
also holds when entries of other name types precede the first type-0
entry is false: see the counterexample, the scan does not skip the name
bytes of a non-type-0 entry.) -/
theorem sni_returns_first_type0_name (head38 sid cs comp name tE tX : List Nat)
    (h38 : head38.length = 38) (hsid : sid.length ≤ 255) (hcs : cs.length ≤ 65535)
    (hcomp : comp.length ≤ 255) (hq : 1 ≤ name.length)
    (hext : 9 + name.length + tE.length + tX.length ≤ 65535) :
    TLSRecord.SNI ⟨⟨22, 0x0301⟩, mkCHBody head38 sid cs comp name tE tX⟩
      = SNIRes.ok name := by
  set B := mkCHBody head38 sid cs comp name tE tX with hB
  have hlen : B.length
      = 44 + sid.length + cs.length + comp.length
        + (9 + name.length + tE.length + tX.length) := by
    simp [hB, mkCHBody, u16be, h38]
    omega
  have hr1 : readByte? B 38 = some sid.length := by
    rw [hB, mkCHBody]
    exact getByte_at head38 _ sid.length 38 h38.symm
  have hr2 : readU16? B (38 + 1 + sid.length) = some cs.length := by
    have hassoc : B = (head38 ++ [sid.length] ++ sid) ++
        (u16be cs.length ++
          (cs ++
            ([comp.length] ++
              (comp ++
                (u16be (9 + name.length + tE.length + tX.length) ++
                  (u16be 0 ++
                    (u16be (2 + (3 + name.length + tE.length)) ++
                      (u16be (3 + name.length + tE.length) ++
                        ([0] ++
                          (u16be name.length ++
                            (name ++ (tE ++ tX)))))))))))) := by
      rw [hB, mkCHBody]; simp [List.append_assoc]
    rw [hassoc]
    exact readU16_at _ _ _ _ (by simp [h38]; omega)
  have hr3 : readByte? B (38 + 1 + sid.length + 2 + cs.length) = some comp.length := by
    have hassoc : B = (head38 ++ [sid.length] ++ sid ++ u16be cs.length ++ cs) ++
        (comp.length ::
            (comp ++
              (u16be (9 + name.length + tE.length + tX.length) ++
                (u16be 0 ++
                  (u16be (2 + (3 + name.length + tE.length)) ++
                    (u16be (3 + name.length + tE.length) ++
                      ([0] ++
                        (u16be name.length ++
                          (name ++ (tE ++ tX)))))))))) := by
      rw [hB, mkCHBody]; simp [List.append_assoc, u16be]
    rw [hassoc]
    exact getByte_at _ _ _ _ (by simp [h38, u16be]; omega)
  have hr4 : readU16? B (38 + 1 + sid.length + 2 + cs.length + 1 + comp.length)
      = some (9 + name.length + tE.length + tX.length) := by
    have hassoc : B = (head38 ++ [sid.length] ++ sid ++ u16be cs.length ++ cs
          ++ [comp.length] ++ comp) ++
        (u16be (9 + name.length + tE.length + tX.length) ++
          (u16be 0 ++
            (u16be (2 + (3 + name.length + tE.length)) ++
              (u16be (3 + name.length + tE.length) ++
                ([0] ++
                  (u16be name.length ++
                    (name ++ (tE ++ tX)))))))) := by
      rw [hB, mkCHBody]; simp [List.append_assoc, u16be]
    rw [hassoc]
    exact readU16_at _ _ _ _ (by simp [h38, u16be]; omega)
  show TLSRecord.SNI ⟨⟨22, 0x0301⟩, B⟩ = SNIRes.ok name
  unfold TLSRecord.SNI
  rw [if_neg (by rw [hlen]; omega)]
  simp only [hr1]
  rw [if_neg (by rw [hlen]; omega)]
  simp only [hr2]
  rw [if_neg (by rw [hlen]; omega)]
  simp only [hr3]
  rw [if_neg (by rw [hlen]; omega)]
  simp only [hr4]
  rw [if_neg (by rw [hlen]; omega)]
  apply sniExtLoop_hit B
      (head38 ++ [sid.length] ++ sid ++ u16be cs.length ++ cs ++ [comp.length] ++ comp
        ++ u16be (9 + name.length + tE.length + tX.length))
      name tE tX
  · rw [hB, mkCHBody]; simp [List.append_assoc]
  · simp [h38, u16be]; omega
  · simp [h38, u16be]; omega
  · exact hq

set_option maxRecDepth 8000 in
/-- C5 counterexample: on a well-formed body whose server_name list
holds a nameType-1 entry with the 1-byte name "a" followed by a
nameType-0 entry with the name "x" (byte 120), `TLSRecord.SNI` returns
`""` instead of "x": after the type-1 entry's 3-byte header the scan
does not skip the entry's name byte, misreads `97` as the next entry's
type, and walks past the list. -/
theorem sni_misparse_preceding_entry :
    TLSRecord.SNI ⟨⟨22, 0x0301⟩, c5cexBody⟩ = SNIRes.ok []
    ∧ SNIRes.ok ([] : List Nat) ≠ SNIRes.ok [120] := by
  constructor
  · simp [TLSRecord.SNI, sniExtLoop, sniNameLoop, readU16?, readByte?, c5cexBody, List.get?]
  · decide

/-- C5 amended, instantiated: a body embedding "example.com" in a
single server_name entry round-trips to exactly "example.com". -/
theorem sni_returns_first_type0_name_witness :
    TLSRecord.SNI ⟨⟨22, 0x0301⟩,
        mkCHBody (List.replicate 38 0) [] [] [] exampleComBytes [] []⟩
      = SNIRes.ok exampleComBytes :=
  sni_returns_first_type0_name (List.replicate 38 0) [] [] [] exampleComBytes [] []
    (by simp) (by simp) (by simp) (by simp) (by decide) (by decide)
